import Mathlib

/-!
Verification of the reaction-diffusion (Gray-Scott style Turing pattern)
cellular automaton core from `src/lib.rs`.  The per-cell concentrations
(`f32` in the source) are modelled as rationals; vectors become lists with
explicit state passing for the `&mut` colour-map parameter.
-/

namespace CATuring

/-- CellState: the pair of concentrations `a`, `b` of one cell (source lines 10-14). -/
structure CellState where
  a : ℚ
  b : ℚ
deriving DecidableEq

/-- Position: the `(x, y)` coordinates of one cell (source lines 67-71);
the grid is indexed as `universe[y][x]`. -/
structure Position where
  x : Nat
  y : Nat
deriving DecidableEq

/-- Parameters: the configuration record of the simulation (source lines 89-98).
Its construction is the bare structure literal: the source has no validating
constructor, the ranges stated in its doc comment are not enforced. -/
structure Parameters where
  d_a : ℚ
  d_b : ℚ
  f : ℚ
  k : ℚ
  r : ℚ
  n_x : Nat
  n_y : Nat
deriving DecidableEq

/-- Universe: the 2-dimensional grid of cell states (source line 116). -/
abbrev Universe := List (List CellState)

/-- ColoredMap: the 2-dimensional grid of colour scalars (source line 120). -/
abbrev ColoredMap := List (List ℚ)

/-- Read of `universe[r][c]`, totalised with the all-zero cell as default. -/
def getCell (univ : Universe) (r c : Nat) : CellState :=
  (univ.getD r []).getD c ⟨0, 0⟩

/-- Read of `colored_map[r][c]`, totalised with `0` as default. -/
def getColor (m : ColoredMap) (r c : Nat) : ℚ :=
  (m.getD r []).getD c 0

/-- Write `m[r][c] = v` on a 2-dimensional list (out-of-range writes are dropped). -/
def set2 {α : Type} (m : List (List α)) (r c : Nat) (v : α) : List (List α) :=
  m.set r ((m.getD r []).set c v)

/-- color_cell (source lines 385-390): `0` when `a + b ≤ 0`, else `b / (a + b)`. -/
def color_cell (cell : CellState) : ℚ :=
  if cell.a + cell.b ≤ 0 then 0 else cell.b / (cell.a + cell.b)

/-- get_adjacent_cells_diffusion (source lines 177-191): subtract the outflow from
the running diffused cell, then add the inflow read from the frozen universe. -/
def get_adjacent_cells_diffusion (d_a d_b angular_rate : ℚ) (diffused_cell : CellState)
    (neighbour_position : Position) (univ : Universe) : CellState :=
  let a1 := diffused_cell.a - angular_rate * d_a * diffused_cell.a
  let b1 := diffused_cell.b - angular_rate * d_b * diffused_cell.b
  let a2 := a1 + angular_rate * d_a * (getCell univ neighbour_position.y neighbour_position.x).a
  let b2 := b1 + angular_rate * d_b * (getCell univ neighbour_position.y neighbour_position.x).b
  ⟨a2, b2⟩

/-- get_diffusion_in_cell (source lines 199-298): the eight guarded neighbour
contributions in source order NW, N, NE, E, SE, S, SW, W, sequentially applied
to a running cell value. -/
def get_diffusion_in_cell (d_a d_b : ℚ) (cell : CellState) (position dimensions : Position)
    (univ : Universe) : CellState :=
  let d0 := cell
  let d1 := if (position.y : ℤ) - 1 ≥ 0 ∧ (position.x : ℤ) - 1 ≥ 0 then
      get_adjacent_cells_diffusion d_a d_b 0.05 d0 ⟨position.x - 1, position.y - 1⟩ univ
    else d0
  let d2 := if (position.y : ℤ) - 1 ≥ 0 then
      get_adjacent_cells_diffusion d_a d_b 0.2 d1 ⟨position.x, position.y - 1⟩ univ
    else d1
  let d3 := if (position.y : ℤ) - 1 ≥ 0 ∧ position.x + 1 < dimensions.x then
      get_adjacent_cells_diffusion d_a d_b 0.05 d2 ⟨position.x + 1, position.y - 1⟩ univ
    else d2
  let d4 := if position.x + 1 < dimensions.x then
      get_adjacent_cells_diffusion d_a d_b 0.2 d3 ⟨position.x + 1, position.y⟩ univ
    else d3
  let d5 := if position.y + 1 < dimensions.y ∧ position.x + 1 < dimensions.x then
      get_adjacent_cells_diffusion d_a d_b 0.05 d4 ⟨position.x + 1, position.y + 1⟩ univ
    else d4
  let d6 := if position.y + 1 < dimensions.y then
      get_adjacent_cells_diffusion d_a d_b 0.2 d5 ⟨position.x, position.y + 1⟩ univ
    else d5
  let d7 := if position.y + 1 < dimensions.y ∧ (position.x : ℤ) - 1 ≥ 0 then
      get_adjacent_cells_diffusion d_a d_b 0.05 d6 ⟨position.x - 1, position.y + 1⟩ univ
    else d6
  let d8 := if (position.x : ℤ) - 1 ≥ 0 then
      get_adjacent_cells_diffusion d_a d_b 0.2 d7 ⟨position.x - 1, position.y⟩ univ
    else d7
  d8

/-- transition, cell part (source lines 305-334): diffusion, then feed of A,
death of B and the reproduction reaction, the kinetic terms sourced from the
original cell value. -/
def transition_cell (parameters : Parameters) (cell : CellState) (position dimensions : Position)
    (univ : Universe) : CellState :=
  let diffused := get_diffusion_in_cell parameters.d_a parameters.d_b cell position dimensions
    univ
  let a1 := diffused.a + parameters.f * (1 - cell.a)
  let b1 := diffused.b - parameters.k * cell.b
  let reproduction_reaction := parameters.r * cell.a * cell.b ^ 2
  ⟨a1 - reproduction_reaction, b1 + reproduction_reaction⟩

/-- transition (source lines 305-334) with the `&mut colored_map` parameter made
explicit: returns the evolved cell and the colour map with
`colored_map[position.y][position.x] = color_cell(evolved_cell)` written. -/
def transition (parameters : Parameters) (cell : CellState) (position dimensions : Position)
    (univ : Universe) (colored_map : ColoredMap) : CellState × ColoredMap :=
  let evolved_cell := transition_cell parameters cell position dimensions univ
  (evolved_cell, set2 colored_map position.y position.x (color_cell evolved_cell))

/-- evolution_universe (source lines 339-362): allocate an all-zero output grid and
sweep rows then columns, writing `transition` of each frozen input cell into the
output grid and threading the colour map through every call. -/
def evolution_universe (parameters : Parameters) (dimensions : Position)
    (univ : Universe) (colored_map : ColoredMap) : Universe × ColoredMap :=
  let init : Universe := List.replicate dimensions.y (List.replicate dimensions.x ⟨0, 0⟩)
  (List.range dimensions.y).foldl
    (fun st r =>
      (List.range dimensions.x).foldl
        (fun st c =>
          let tc := transition parameters (getCell univ r c) ⟨c, r⟩ dimensions univ st.2
          (set2 st.1 r c tc.1, tc.2))
        st)
    (init, colored_map)

/-- Loop state of total_simulation: `k` successive replacements of the universe by
`evolution_universe`, threading the colour map. -/
def simLoop (parameters : Parameters) (dimensions : Position) :
    Nat → Universe × ColoredMap → Universe × ColoredMap
  | 0, st => st
  | Nat.succ k, st =>
      simLoop parameters dimensions k (evolution_universe parameters dimensions st.1 st.2)

/-- total_simulation (source lines 367-381): run the loop `n` times (`for _ in 0..n`
iterates `max n 0` times).  The function returns unit in the source; its only
output is the final state of the `&mut colored_map` parameter, made explicit here.
The terminal universe is dropped. -/
def total_simulation (n : ℤ) (parameters : Parameters) (dimensions : Position)
    (univ : Universe) (colored_map : ColoredMap) : ColoredMap :=
  (simLoop parameters dimensions n.toNat (univ, colored_map)).2

/-- Spec 4.3: neighbour offset table `(dy, dx, weight)` in the iteration order
NW, N, NE, E, SE, S, SW, W with angular weights 0.05, 0.2, 0.05, 0.2, 0.05,
0.2, 0.05, 0.2. -/
def neighbourOffsets : List (ℤ × ℤ × ℚ) :=
  [(-1, -1, 0.05), (-1, 0, 0.2), (-1, 1, 0.05), (0, 1, 0.2),
   (1, 1, 0.05), (1, 0, 0.2), (1, -1, 0.05), (0, -1, 0.2)]

/-- Spec 4.3: the existing (in-bounds) Moore neighbours of a position, with their
angular weights, in the order of `neighbourOffsets`. -/
def existingNeighbours (position dimensions : Position) : List (Position × ℚ) :=
  neighbourOffsets.filterMap (fun t =>
    if 0 ≤ (position.y : ℤ) + t.1 ∧ (position.y : ℤ) + t.1 < (dimensions.y : ℤ) ∧
        0 ≤ (position.x : ℤ) + t.2.1 ∧ (position.x : ℤ) + t.2.1 < (dimensions.x : ℤ) then
      some (⟨((position.x : ℤ) + t.2.1).toNat, ((position.y : ℤ) + t.1).toNat⟩, t.2.2)
    else none)

/-- Spec 4.3: one neighbour contribution: subtract the outflow `w * d * running`
from the running value, then add the inflow `w * d * neighbour` read from the
frozen previous-generation value. -/
def diffusionStep (d_a d_b w : ℚ) (running neighbour : CellState) : CellState :=
  ⟨running.a - w * d_a * running.a + w * d_a * neighbour.a,
   running.b - w * d_b * running.b + w * d_b * neighbour.b⟩

/-- Spec 4.3: diffusion as a sequential left fold of `diffusionStep` over the
existing neighbours in table order, the neighbour values read from the frozen
universe. -/
def diffusionSpec (d_a d_b : ℚ) (cell : CellState) (position dimensions : Position)
    (univ : Universe) : CellState :=
  (existingNeighbours position dimensions).foldl
    (fun running qw => diffusionStep d_a d_b qw.2 running (getCell univ qw.1.y qw.1.x)) cell

/-- Generic read of a 2-dimensional list with default `d`. -/
def getD2 {α : Type} (m : List (List α)) (d : α) (r c : Nat) : α := (m.getD r []).getD c d

/-- Writing every position of a `Y` by `X` area of a 2-dimensional list, row-major. -/
def write2All {α : Type} (Y X : Nat) (v : Nat → Nat → α) (m : List (List α)) : List (List α) :=
  (List.range Y).foldl
    (fun m r => (List.range X).foldl (fun m c => set2 m r c (v r c)) m) m

/-- The all-zero universe of the given dimensions. -/
def zeroUniverse (dims : Position) : Universe :=
  List.replicate dims.y (List.replicate dims.x ⟨0, 0⟩)

/-- Spec 4.4: the reaction operator: feed `f * (1 - a_original)` on `a`, decay
`k * b_original` off `b`, and the autocatalytic reaction
`r * a_original * b_original ^ 2` moved from `a` to `b`; every kinetic term is
sourced from the original (pre-diffusion) cell value. -/
def reactionOperator (p : Parameters) (diffused original : CellState) : CellState :=
  ⟨diffused.a + p.f * (1 - original.a) - p.r * original.a * original.b ^ 2,
   diffused.b - p.k * original.b + p.r * original.a * original.b ^ 2⟩

theorem gacd_eq_diffusionStep (d_a d_b w : ℚ) (running : CellState) (q : Position)
    (u : Universe) :
    get_adjacent_cells_diffusion d_a d_b w running q u
      = diffusionStep d_a d_b w running (getCell u q.y q.x) := rfl

theorem int_sub_one_nonneg (y : Nat) : (0 ≤ (y : ℤ) - 1) ↔ 1 ≤ y := by omega

theorem int_add_neg_one_nonneg (y : Nat) : (0 ≤ (y : ℤ) + -1) ↔ 1 ≤ y := by omega

theorem int_add_neg_one_lt (y Y : Nat) (hy : y < Y) : (y : ℤ) + -1 < (Y : ℤ) := by omega

theorem int_add_zero_nonneg (y : Nat) : (0 : ℤ) ≤ (y : ℤ) + 0 := by omega

theorem int_add_zero_lt (y Y : Nat) (hy : y < Y) : (y : ℤ) + 0 < (Y : ℤ) := by omega

theorem int_add_one_nonneg (y : Nat) : (0 : ℤ) ≤ (y : ℤ) + 1 := by omega

theorem int_add_one_lt (y Y : Nat) : ((y : ℤ) + 1 < (Y : ℤ)) ↔ y + 1 < Y := by omega

theorem toNat_add_neg_one (y : Nat) (h : 1 ≤ y) : ((y : ℤ) + -1).toNat = y - 1 := by omega

theorem toNat_add_zero (y : Nat) : ((y : ℤ) + 0).toNat = y := by omega

theorem toNat_add_one (y : Nat) : ((y : ℤ) + 1).toNat = y + 1 := by omega

/-- Core refinement lemma: at any in-bounds position the source diffusion
`get_diffusion_in_cell` equals the spec-side fold of the per-neighbour step over
the ordered table of existing neighbours. -/
theorem diffusion_eq_spec (d_a d_b : ℚ) (cell : CellState) (position dimensions : Position)
    (u : Universe) (hy : position.y < dimensions.y) (hx : position.x < dimensions.x) :
    get_diffusion_in_cell d_a d_b cell position dimensions u
      = diffusionSpec d_a d_b cell position dimensions u := by
  by_cases hy0 : 1 ≤ position.y <;> by_cases hy1 : position.y + 1 < dimensions.y <;>
    by_cases hx0 : 1 ≤ position.x <;> by_cases hx1 : position.x + 1 < dimensions.x <;>
      simp [get_diffusion_in_cell, diffusionSpec, existingNeighbours, neighbourOffsets,
        gacd_eq_diffusionStep, ge_iff_le, int_sub_one_nonneg, int_add_neg_one_nonneg,
        int_add_neg_one_lt position.y dimensions.y hy, int_add_neg_one_lt position.x dimensions.x hx,
        int_add_zero_nonneg, int_add_zero_lt position.y dimensions.y hy,
        int_add_zero_lt position.x dimensions.x hx, int_add_one_nonneg, int_add_one_lt,
        toNat_add_neg_one, toNat_add_zero, toNat_add_one, Nat.cast_lt, Nat.cast_nonneg,
        hy, hx, hy0, hy1, hx0, hx1]

section GridLemmas

variable {α : Type}

theorem getD_set_ne (l : List α) (i j : Nat) (x d : α) (h : i ≠ j) :
    (l.set i x).getD j d = l.getD j d := by
  simp [List.getD_eq_getElem?_getD, List.getElem?_set_ne h]

theorem getD_set_self (l : List α) (i : Nat) (x d : α) (h : i < l.length) :
    (l.set i x).getD i d = x := by
  simp [List.getD_eq_getElem?_getD, List.getElem?_set_self, h]

theorem set_getD_self (l : List α) (r : Nat) (d : α) : l.set r (l.getD r d) = l := by
  induction l generalizing r with
  | nil => rfl
  | cons hd tl ih =>
      cases r with
      | zero => rfl
      | succ r => simpa using ih r

/-- One written row: folding column writes of row `r` only rewrites row `r`. -/
theorem foldl_set2_row (v : Nat → Nat → α) (r : Nat) :
    ∀ (cols : List Nat) (m : List (List α)),
      cols.foldl (fun m c => set2 m r c (v r c)) m
        = m.set r (cols.foldl (fun row c => row.set c (v r c)) (m.getD r [])) := by
  intro cols
  induction cols with
  | nil => intro m; simpa using (set_getD_self m r []).symm
  | cons c cols ih =>
      intro m
      have hrow : (set2 m r c (v r c)).getD r [] = (m.getD r []).set c (v r c) := by
        by_cases h : r < m.length
        · exact getD_set_self m r _ [] h
        · have h2 : m.getD r [] = [] := List.getD_eq_default _ _ (by omega)
          simp only [set2]
          rw [h2, List.set_eq_of_length_le (show m.length ≤ r by omega), h2]
          rfl
      calc (c :: cols).foldl (fun m c => set2 m r c (v r c)) m
          = cols.foldl (fun m c => set2 m r c (v r c)) (set2 m r c (v r c)) := by
            rw [List.foldl_cons]
        _ = (set2 m r c (v r c)).set r
              (cols.foldl (fun row c => row.set c (v r c)) ((set2 m r c (v r c)).getD r [])) :=
            ih _
        _ = (m.set r ((m.getD r []).set c (v r c))).set r
              (cols.foldl (fun row c => row.set c (v r c)) ((m.getD r []).set c (v r c))) := by
            rw [hrow]; simp only [set2]
        _ = m.set r (cols.foldl (fun row c => row.set c (v r c)) ((m.getD r []).set c (v r c))) :=
            List.set_set ..
        _ = m.set r ((c :: cols).foldl (fun row c => row.set c (v r c)) (m.getD r [])) := by
            rw [List.foldl_cons]

theorem foldl_set_row_length (w : Nat → α) :
    ∀ (cols : List Nat) (row : List α),
      (cols.foldl (fun row c => row.set c (w c)) row).length = row.length := by
  intro cols
  induction cols with
  | nil => intro row; rfl
  | cons c cols ih => intro row; simp [List.foldl_cons, ih]

/-- Reading a written column out of a column-write fold over `range X`. -/
theorem foldl_set_row_getD (w : Nat → α) (d : α) :
    ∀ (X : Nat) (row : List α) (c : Nat), c < X → c < row.length →
      ((List.range X).foldl (fun row c => row.set c (w c)) row).getD c d = w c := by
  intro X
  induction X with
  | zero => intro row c hc; omega
  | succ X ih =>
      intro row c hc hrow
      rw [List.range_succ, List.foldl_append]
      simp only [List.foldl_cons, List.foldl_nil]
      by_cases h : c = X
      · subst h
        exact getD_set_self _ _ _ _ (by rw [foldl_set_row_length]; omega)
      · rw [getD_set_ne _ _ _ _ _ (by omega)]
        exact ih row c (by omega) hrow

theorem write2All_succ (Y X : Nat) (v : Nat → Nat → α) (m : List (List α)) :
    write2All (Y + 1) X v m
      = (write2All Y X v m).set Y
          ((List.range X).foldl (fun row c => row.set c (v Y c))
            ((write2All Y X v m).getD Y [])) := by
  unfold write2All
  rw [List.range_succ, List.foldl_append]
  simp only [List.foldl_cons, List.foldl_nil]
  rw [foldl_set2_row]

theorem write2All_length (Y X : Nat) (v : Nat → Nat → α) :
    ∀ (m : List (List α)), (write2All Y X v m).length = m.length := by
  induction Y with
  | zero => intro m; rfl
  | succ Y ih =>
      intro m
      rw [write2All_succ, List.length_set]
      exact ih m

theorem write2All_getD_ge (Y X : Nat) (v : Nat → Nat → α) :
    ∀ (m : List (List α)) (r : Nat), Y ≤ r →
      (write2All Y X v m).getD r [] = m.getD r [] := by
  induction Y with
  | zero => intro m r _; rfl
  | succ Y ih =>
      intro m r hr
      rw [write2All_succ, getD_set_ne _ _ _ _ _ (by omega)]
      exact ih m r (by omega)

/-- Main write-sweep lemma: after writing all of the `Y` by `X` area, reading an
in-area position returns the written value. -/
theorem write2All_getD2 (d : α) (X : Nat) (v : Nat → Nat → α) :
    ∀ (Y : Nat) (m : List (List α)), Y ≤ m.length → (∀ row ∈ m, row.length = X) →
      ∀ r c, r < Y → c < X →
        getD2 (write2All Y X v m) d r c = v r c := by
  intro Y
  induction Y with
  | zero => intro m _ _ r c hr; omega
  | succ Y ih =>
      intro m hY hrows r c hr hc
      rw [write2All_succ]
      by_cases h : r = Y
      · rw [h]
        have hlen : (write2All Y X v m).length = m.length := write2All_length Y X v m
        have hrowY : (write2All Y X v m).getD Y [] = m.getD Y [] :=
          write2All_getD_ge Y X v m Y (le_refl Y)
        have hYlt : Y < m.length := by omega
        have hmr : (m.getD Y []).length = X := by
          rw [List.getD_eq_getElem (l := m) (d := ([] : List α)) hYlt]
          exact hrows _ (List.getElem_mem hYlt)
        unfold getD2
        rw [getD_set_self _ _ _ _ (by omega), hrowY]
        exact foldl_set_row_getD _ _ X _ c hc (by omega)
      · unfold getD2
        rw [getD_set_ne _ _ _ _ _ (Ne.symm h)]
        exact ih m (by omega) hrows r c (by omega) hc

end GridLemmas

theorem foldl_pair {α β γ : Type} (f : α → γ → α) (g : β → γ → β) :
    ∀ (l : List γ) (a : α) (b : β),
      l.foldl (fun st x => (f st.1 x, g st.2 x)) (a, b) = (l.foldl f a, l.foldl g b) := by
  intro l
  induction l with
  | nil => intro a b; rfl
  | cons x l ih =>
      intro a b
      rw [List.foldl_cons, List.foldl_cons, List.foldl_cons]
      exact ih (f a x) (g b x)

/-- Pair-splitting of the sweep: the output grid and the output colour map of
`evolution_universe` are two independent row-major write sweeps, the grid sweep
writing `transition_cell` of each frozen input cell and the colour sweep writing
its colour. -/
theorem evolution_universe_eq (p : Parameters) (dims : Position) (u : Universe)
    (cm : ColoredMap) :
    evolution_universe p dims u cm
      = (write2All dims.y dims.x (fun r c => transition_cell p (getCell u r c) ⟨c, r⟩ dims u)
           (List.replicate dims.y (List.replicate dims.x ⟨0, 0⟩)),
         write2All dims.y dims.x
           (fun r c => color_cell (transition_cell p (getCell u r c) ⟨c, r⟩ dims u)) cm) := by
  have inner : ∀ (r : Nat) (st : Universe × ColoredMap),
      (List.range dims.x).foldl
        (fun st c =>
          let tc := transition p (getCell u r c) ⟨c, r⟩ dims u st.2
          (set2 st.1 r c tc.1, tc.2)) st
      = ((List.range dims.x).foldl
           (fun g c => set2 g r c (transition_cell p (getCell u r c) ⟨c, r⟩ dims u)) st.1,
         (List.range dims.x).foldl
           (fun m c => set2 m r c
             (color_cell (transition_cell p (getCell u r c) ⟨c, r⟩ dims u))) st.2) := by
    intro r st
    obtain ⟨g, m⟩ := st
    exact foldl_pair
      (fun g c => set2 g r c (transition_cell p (getCell u r c) ⟨c, r⟩ dims u))
      (fun m c => set2 m r c (color_cell (transition_cell p (getCell u r c) ⟨c, r⟩ dims u)))
      (List.range dims.x) g m
  simp only [evolution_universe, write2All, inner]
  exact foldl_pair
    (fun g r => (List.range dims.x).foldl
      (fun g c => set2 g r c (transition_cell p (getCell u r c) ⟨c, r⟩ dims u)) g)
    (fun m r => (List.range dims.x).foldl
      (fun m c => set2 m r c
        (color_cell (transition_cell p (getCell u r c) ⟨c, r⟩ dims u))) m)
    (List.range dims.y) (List.replicate dims.y (List.replicate dims.x ⟨0, 0⟩)) cm

theorem getCell_zeroUniverse (dims : Position) (r c : Nat) :
    getCell (zeroUniverse dims) r c = ⟨0, 0⟩ := by
  unfold getCell zeroUniverse
  rcases lt_or_ge r dims.y with h | h
  · have houter : (List.replicate dims.y (List.replicate dims.x (⟨0, 0⟩ : CellState))).getD r []
        = List.replicate dims.x (⟨0, 0⟩ : CellState) := by
      rw [List.getD_eq_getElem _ _ (by simpa using h), List.getElem_replicate]
    rw [houter]
    rcases lt_or_ge c dims.x with h2 | h2
    · rw [List.getD_eq_getElem _ _ (by simpa using h2), List.getElem_replicate]
    · rw [List.getD_eq_default _ _ (by simpa using h2)]
  · have houter : (List.replicate dims.y (List.replicate dims.x (⟨0, 0⟩ : CellState))).getD r []
        = [] := List.getD_eq_default _ _ (by simpa using h)
    rw [houter]
    rfl

theorem gacd_zeroUniverse (d_a d_b w : ℚ) (q dims : Position) :
    get_adjacent_cells_diffusion d_a d_b w ⟨0, 0⟩ q (zeroUniverse dims) = ⟨0, 0⟩ := by
  simp [get_adjacent_cells_diffusion, getCell_zeroUniverse]

theorem diffusion_zeroUniverse (d_a d_b : ℚ) (pos dims : Position) :
    get_diffusion_in_cell d_a d_b ⟨0, 0⟩ pos dims (zeroUniverse dims) = ⟨0, 0⟩ := by
  simp [get_diffusion_in_cell, gacd_zeroUniverse]

/-- On the all-zero universe the per-cell transition yields `a = f`, `b = 0`:
diffusion contributes nothing, the feed term contributes `f * (1 - 0) = f`. -/
theorem transition_cell_zeroUniverse (p : Parameters) (pos dims : Position) :
    transition_cell p ⟨0, 0⟩ pos dims (zeroUniverse dims) = ⟨p.f, 0⟩ := by
  simp [transition_cell, diffusion_zeroUniverse]

theorem simLoop_add (p : Parameters) (dims : Position) :
    ∀ (n m : Nat) (st : Universe × ColoredMap),
      simLoop p dims (n + m) st = simLoop p dims m (simLoop p dims n st) := by
  intro n
  induction n with
  | zero => intro m st; rw [Nat.zero_add]; rfl
  | succ n ih =>
      intro m st
      rw [Nat.succ_add]
      show simLoop p dims (n + m) (evolution_universe p dims st.1 st.2) = _
      rw [ih]
      rfl

theorem simLoop_eq_iterate (p : Parameters) (dims : Position) :
    ∀ (n : Nat) (st : Universe × ColoredMap),
      simLoop p dims n st
        = (fun st : Universe × ColoredMap => evolution_universe p dims st.1 st.2)^[n] st := by
  intro n
  induction n with
  | zero => intro st; rfl
  | succ n ih =>
      intro st
      rw [Function.iterate_succ_apply]
      exact ih _

/-- One step on the all-zero universe puts `(f, 0)` into every in-bounds cell. -/
theorem evolution_zeroUniverse_cell (p : Parameters) (dims : Position) (cm : ColoredMap)
    (r c : Nat) (hr : r < dims.y) (hc : c < dims.x) :
    getCell (evolution_universe p dims (zeroUniverse dims) cm).1 r c = ⟨p.f, 0⟩ := by
  rw [evolution_universe_eq]
  show getD2 (write2All dims.y dims.x
      (fun r c => transition_cell p (getCell (zeroUniverse dims) r c) ⟨c, r⟩ dims
        (zeroUniverse dims))
      (List.replicate dims.y (List.replicate dims.x ⟨0, 0⟩))) ⟨0, 0⟩ r c = ⟨p.f, 0⟩
  have hgrid : getD2 (write2All dims.y dims.x
      (fun r c => transition_cell p (getCell (zeroUniverse dims) r c) ⟨c, r⟩ dims
        (zeroUniverse dims))
      (List.replicate dims.y (List.replicate dims.x ⟨0, 0⟩))) ⟨0, 0⟩ r c
      = transition_cell p (getCell (zeroUniverse dims) r c) ⟨c, r⟩ dims (zeroUniverse dims) :=
    write2All_getD2 _ _ _ _ _ (by simp)
      (fun row hrow => by rw [List.eq_of_mem_replicate hrow]; simp) r c hr hc
  rw [hgrid, getCell_zeroUniverse]
  exact transition_cell_zeroUniverse p ⟨c, r⟩ dims

/-- Claim C1: at every in-bounds position, `get_diffusion_in_cell` visits exactly
the existing Moore neighbours, in the order NW, N, NE, E, SE, S, SW, W with
angular weights 0.05, 0.2, 0.05, 0.2, 0.05, 0.2, 0.05, 0.2, and for each
neighbour first subtracts `w * d * running` from the sequentially accumulated
running value and then adds `w * d * neighbour` read from the frozen
previous-generation grid. -/
theorem claim_C1_diffusion_neighbour_order (d_a d_b : ℚ) (cell : CellState)
    (position dimensions : Position) (u : Universe)
    (hy : position.y < dimensions.y) (hx : position.x < dimensions.x) :
    get_diffusion_in_cell d_a d_b cell position dimensions u
      = (existingNeighbours position dimensions).foldl
          (fun running qw => diffusionStep d_a d_b qw.2 running (getCell u qw.1.y qw.1.x))
          cell :=
  diffusion_eq_spec d_a d_b cell position dimensions u hy hx

/-- Witness for C1 at position (1,1) of a fully populated 3 by 3 grid. -/
theorem claim_C1_witness :
    get_diffusion_in_cell 0.6 0.3 ⟨9, 10⟩ ⟨1, 1⟩ ⟨3, 3⟩
        [[⟨1, 2⟩, ⟨3, 4⟩, ⟨5, 6⟩], [⟨7, 8⟩, ⟨9, 10⟩, ⟨11, 12⟩], [⟨13, 14⟩, ⟨15, 16⟩, ⟨17, 18⟩]]
      = (existingNeighbours ⟨1, 1⟩ ⟨3, 3⟩).foldl
          (fun running qw => diffusionStep 0.6 0.3 qw.2 running
            (getCell [[⟨1, 2⟩, ⟨3, 4⟩, ⟨5, 6⟩], [⟨7, 8⟩, ⟨9, 10⟩, ⟨11, 12⟩],
              [⟨13, 14⟩, ⟨15, 16⟩, ⟨17, 18⟩]] qw.1.y qw.1.x))
          ⟨9, 10⟩ :=
  claim_C1_diffusion_neighbour_order 0.6 0.3 ⟨9, 10⟩ ⟨1, 1⟩ ⟨3, 3⟩ _ (by decide) (by decide)

theorem all_zero_eq_zeroUniverse (dims : Position) (u : Universe)
    (hlen : u.length = dims.y) (hrows : ∀ row ∈ u, row.length = dims.x)
    (hcells : ∀ row ∈ u, ∀ cell ∈ row, cell = ⟨0, 0⟩) : u = zeroUniverse dims := by
  apply List.ext_getElem (by simp [zeroUniverse, hlen])
  intro i h1 h2
  have hrow := hrows u[i] (List.getElem_mem h1)
  have hcell := hcells u[i] (List.getElem_mem h1)
  have hz : (zeroUniverse dims)[i] = List.replicate dims.x (⟨0, 0⟩ : CellState) := by
    simp [zeroUniverse]
  rw [hz]
  exact List.eq_replicate_iff.mpr ⟨hrow, hcell⟩

/-- Claim C2 (amended): one application of `evolution_universe` to any fully
populated grid in which every cell is `(0, 0)` yields the grid in which every
cell has `a = f` and `b = 0`; the all-zero state is a fixed point only when
`f = 0`, because the feed term contributes `f * (1 - 0) = f`. -/
theorem claim_C2_amended (p : Parameters) (dims : Position) (u : Universe) (cm : ColoredMap)
    (hlen : u.length = dims.y) (hrows : ∀ row ∈ u, row.length = dims.x)
    (hcells : ∀ row ∈ u, ∀ cell ∈ row, cell = ⟨0, 0⟩)
    (r c : Nat) (hr : r < dims.y) (hc : c < dims.x) :
    getCell (evolution_universe p dims u cm).1 r c = ⟨p.f, 0⟩ := by
  rw [all_zero_eq_zeroUniverse dims u hlen hrows hcells]
  exact evolution_zeroUniverse_cell p dims cm r c hr hc

/-- Witness for the amended C2 on a 2 by 2 zero grid with `f = 0.2`. -/
theorem claim_C2_witness :
    getCell (evolution_universe ⟨0.6, 0.3, 0.2, 0.1, 0.5, 2, 2⟩ ⟨2, 2⟩
        [[⟨0, 0⟩, ⟨0, 0⟩], [⟨0, 0⟩, ⟨0, 0⟩]] [[0, 0], [0, 0]]).1 0 1 = ⟨0.2, 0⟩ :=
  claim_C2_amended ⟨0.6, 0.3, 0.2, 0.1, 0.5, 2, 2⟩ ⟨2, 2⟩
    [[⟨0, 0⟩, ⟨0, 0⟩], [⟨0, 0⟩, ⟨0, 0⟩]] [[0, 0], [0, 0]]
    (by decide) (by decide) (by decide) 0 1 (by decide) (by decide)

/-- Counterexample to C2 as stated: with the reference parameters (`f = 0.2`) one
step on the all-zero 1 by 1 grid produces the cell `(0.2, 0)`, not `(0, 0)`. -/
theorem claim_C2_counterexample :
    zeroUniverse ⟨1, 1⟩ = [[⟨0, 0⟩]]
    ∧ getCell (evolution_universe ⟨0.6, 0.3, 0.2, 0.1, 0.5, 1, 1⟩ ⟨1, 1⟩
        (zeroUniverse ⟨1, 1⟩) [[0]]).1 0 0 = ⟨0.2, 0⟩
    ∧ (⟨0.2, 0⟩ : CellState) ≠ ⟨0, 0⟩ :=
  ⟨rfl,
   evolution_zeroUniverse_cell ⟨0.6, 0.3, 0.2, 0.1, 0.5, 1, 1⟩ ⟨1, 1⟩ [[0]] 0 0
     (by decide) (by decide),
   by norm_num [CellState.mk.injEq]⟩

/-- Claim C3: the per-cell transition applies the reaction operator to the
diffused value, with feed `f * (1 - a_original)`, decay `k * b_original` and the
reaction `r * a_original * b_original ^ 2` all sourced from the pre-diffusion
cell value, never from the diffused intermediate. -/
theorem claim_C3_reaction_after_diffusion (p : Parameters) (cell : CellState)
    (position dimensions : Position) (u : Universe) (cm : ColoredMap) :
    transition p cell position dimensions u cm
      = (reactionOperator p
           (get_diffusion_in_cell p.d_a p.d_b cell position dimensions u) cell,
         set2 cm position.y position.x
           (color_cell (reactionOperator p
             (get_diffusion_in_cell p.d_a p.d_b cell position dimensions u) cell))) := rfl

/-- Claim C4 (amended): `total_simulation` replaces the loop state by
`evolution_universe` of it exactly `n` times, but the terminal universe is
dropped; the function only gives back the final colour map. -/
theorem claim_C4_amended (n : Nat) (p : Parameters) (dims : Position)
    (u : Universe) (cm : ColoredMap) :
    total_simulation (n : ℤ) p dims u cm
      = ((fun st : Universe × ColoredMap =>
            evolution_universe p dims st.1 st.2)^[n] (u, cm)).2 := by
  unfold total_simulation
  rw [Int.toNat_natCast, simLoop_eq_iterate]

/-- Counterexample to C4 as stated: the driver does not return the terminal grid;
its result (the colour map) is identical for two runs whose terminal grids
differ, so the terminal grid is not part of the result. -/
theorem claim_C4_counterexample :
    total_simulation 0 ⟨0.6, 0.3, 0.2, 0.1, 0.5, 1, 1⟩ ⟨1, 1⟩ [[⟨1, 1⟩]] [[0]]
        = total_simulation 0 ⟨0.6, 0.3, 0.2, 0.1, 0.5, 1, 1⟩ ⟨1, 1⟩ [[⟨0, 0⟩]] [[0]]
    ∧ (simLoop ⟨0.6, 0.3, 0.2, 0.1, 0.5, 1, 1⟩ ⟨1, 1⟩ 0 ([[⟨1, 1⟩]], [[0]])).1
        ≠ (simLoop ⟨0.6, 0.3, 0.2, 0.1, 0.5, 1, 1⟩ ⟨1, 1⟩ 0 ([[⟨0, 0⟩]], [[0]])).1 :=
  ⟨rfl, by decide⟩

/-- Claim C5: running zero generations is the identity on the loop state, and
running `n` then `m` generations equals running `n + m` generations; in
particular the driver returns the colour map unchanged for `n = 0`. -/
theorem claim_C5_composability (p : Parameters) (dims : Position)
    (st : Universe × ColoredMap) (n m : Nat) :
    simLoop p dims 0 st = st
    ∧ simLoop p dims (n + m) st = simLoop p dims m (simLoop p dims n st)
    ∧ total_simulation 0 p dims st.1 st.2 = st.2 :=
  ⟨rfl, simLoop_add p dims n m st, rfl⟩

/-- Claim C6: `color_cell` is total and pure; it returns 0 when `a + b ≤ 0` and
`b / (a + b)` otherwise, the all-zero cell has colour 0, and for nonnegative
concentrations the colour lies in [0, 1]. -/
theorem claim_C6_color_total_pure (cell : CellState) :
    color_cell ⟨0, 0⟩ = 0
    ∧ (cell.a + cell.b ≤ 0 → color_cell cell = 0)
    ∧ (0 < cell.a + cell.b → color_cell cell = cell.b / (cell.a + cell.b))
    ∧ (0 ≤ cell.a → 0 ≤ cell.b → 0 ≤ color_cell cell ∧ color_cell cell ≤ 1) := by
  refine ⟨by norm_num [color_cell], fun h => by simp [color_cell, h], fun h => ?_,
    fun ha hb => ?_⟩
  · rw [color_cell, if_neg (by linarith)]
  · unfold color_cell
    split_ifs with h
    · norm_num
    · push_neg at h
      refine ⟨div_nonneg hb (by linarith), ?_⟩
      rw [div_le_one (by linarith)]
      linarith

/-- Witness for C6 at the cell (1, 3). -/
theorem claim_C6_witness : 0 ≤ color_cell ⟨1, 3⟩ ∧ color_cell ⟨1, 3⟩ ≤ 1 :=
  (claim_C6_color_total_pure ⟨1, 3⟩).2.2.2 (by norm_num) (by norm_num)

/-- Claim C7: on any grid with at least 2 rows and 2 columns, diffusion at the
corner (0,0) accumulates exactly the three in-bounds neighbours E (weight 0.2),
SE (weight 0.05) and S (weight 0.2), in that source order, and reads no other
cell of the universe: no wraparound, no reflective boundary. -/
theorem claim_C7_corner (d_a d_b : ℚ) (cell : CellState) (dims : Position) (u : Universe)
    (hy : 2 ≤ dims.y) (hx : 2 ≤ dims.x) :
    get_diffusion_in_cell d_a d_b cell ⟨0, 0⟩ dims u
        = diffusionStep d_a d_b 0.2
            (diffusionStep d_a d_b 0.05
              (diffusionStep d_a d_b 0.2 cell (getCell u 0 1))
              (getCell u 1 1))
            (getCell u 1 0)
    ∧ existingNeighbours ⟨0, 0⟩ dims = [(⟨1, 0⟩, 0.2), (⟨1, 1⟩, 0.05), (⟨0, 1⟩, 0.2)]
    ∧ ∀ u1 u2 : Universe,
        getCell u1 0 1 = getCell u2 0 1 → getCell u1 1 1 = getCell u2 1 1 →
        getCell u1 1 0 = getCell u2 1 0 →
        get_diffusion_in_cell d_a d_b cell ⟨0, 0⟩ dims u1
          = get_diffusion_in_cell d_a d_b cell ⟨0, 0⟩ dims u2 := by
  have hgy : 1 < dims.y := by omega
  have hgx : 1 < dims.x := by omega
  have a1 : (0 : ℤ) < (dims.y : ℤ) := by omega
  have a2 : (0 : ℤ) < (dims.x : ℤ) := by omega
  have a3 : (1 : ℤ) < (dims.y : ℤ) := by omega
  have a4 : (1 : ℤ) < (dims.x : ℤ) := by omega
  refine ⟨?_, ?_, ?_⟩
  · simp +decide [get_diffusion_in_cell, gacd_eq_diffusionStep, hgy, hgx]
  · simp +decide [existingNeighbours, neighbourOffsets, a1, a2, a3, a4]
  · intro u1 u2 h1 h2 h3
    simp +decide [get_diffusion_in_cell, gacd_eq_diffusionStep, hgy, hgx, h1, h2, h3]

/-- Witness for C7 on a concrete 2 by 2 grid. -/
theorem claim_C7_witness :
    get_diffusion_in_cell 0.6 0.3 ⟨1, 2⟩ ⟨0, 0⟩ ⟨2, 2⟩ [[⟨1, 2⟩, ⟨3, 4⟩], [⟨5, 6⟩, ⟨7, 8⟩]]
      = diffusionStep 0.6 0.3 0.2
          (diffusionStep 0.6 0.3 0.05
            (diffusionStep 0.6 0.3 0.2 ⟨1, 2⟩
              (getCell [[⟨1, 2⟩, ⟨3, 4⟩], [⟨5, 6⟩, ⟨7, 8⟩]] 0 1))
            (getCell [[⟨1, 2⟩, ⟨3, 4⟩], [⟨5, 6⟩, ⟨7, 8⟩]] 1 1))
          (getCell [[⟨1, 2⟩, ⟨3, 4⟩], [⟨5, 6⟩, ⟨7, 8⟩]] 1 0) :=
  (claim_C7_corner 0.6 0.3 ⟨1, 2⟩ ⟨2, 2⟩ _ (by decide) (by decide)).1

/-- Claim C8: after one application of `evolution_universe` the colour map is
consistent with the produced grid: at every in-bounds position the written
colour equals `color_cell` of the new grid cell there (for a colour map of the
grid shape). -/
theorem claim_C8_colormap_consistent (p : Parameters) (dims : Position) (u : Universe)
    (cm : ColoredMap) (hlen : dims.y ≤ cm.length) (hrows : ∀ row ∈ cm, row.length = dims.x)
    (r c : Nat) (hr : r < dims.y) (hc : c < dims.x) :
    getColor (evolution_universe p dims u cm).2 r c
      = color_cell (getCell (evolution_universe p dims u cm).1 r c) := by
  rw [evolution_universe_eq]
  show getD2 (write2All dims.y dims.x
      (fun r c => color_cell (transition_cell p (getCell u r c) ⟨c, r⟩ dims u)) cm) 0 r c
    = color_cell (getD2 (write2All dims.y dims.x
        (fun r c => transition_cell p (getCell u r c) ⟨c, r⟩ dims u)
        (List.replicate dims.y (List.replicate dims.x ⟨0, 0⟩))) ⟨0, 0⟩ r c)
  have hmap : getD2 (write2All dims.y dims.x
      (fun r c => color_cell (transition_cell p (getCell u r c) ⟨c, r⟩ dims u)) cm) 0 r c
      = color_cell (transition_cell p (getCell u r c) ⟨c, r⟩ dims u) :=
    write2All_getD2 _ _ _ _ _ hlen hrows r c hr hc
  have hgrid : getD2 (write2All dims.y dims.x
      (fun r c => transition_cell p (getCell u r c) ⟨c, r⟩ dims u)
      (List.replicate dims.y (List.replicate dims.x ⟨0, 0⟩))) ⟨0, 0⟩ r c
      = transition_cell p (getCell u r c) ⟨c, r⟩ dims u :=
    write2All_getD2 _ _ _ _ _ (by simp)
      (fun row hrow => by rw [List.eq_of_mem_replicate hrow]; simp) r c hr hc
  rw [hmap, hgrid]

/-- Witness for C8 on a 1 by 1 grid. -/
theorem claim_C8_witness :
    getColor (evolution_universe ⟨0.6, 0.3, 0.2, 0.1, 0.5, 1, 1⟩ ⟨1, 1⟩ [[⟨1, 1⟩]] [[0]]).2 0 0
      = color_cell
          (getCell (evolution_universe ⟨0.6, 0.3, 0.2, 0.1, 0.5, 1, 1⟩ ⟨1, 1⟩
            [[⟨1, 1⟩]] [[0]]).1 0 0) :=
  claim_C8_colormap_consistent ⟨0.6, 0.3, 0.2, 0.1, 0.5, 1, 1⟩ ⟨1, 1⟩ [[⟨1, 1⟩]] [[0]]
    (by decide) (by decide) 0 0 (by decide) (by decide)

/-- Claim C9 (amended): constructing the configuration record performs no
validation at all: every combination of field values, in or out of the
documented ranges, yields a `Parameters` value carrying exactly those fields. -/
theorem claim_C9_amended (d_a d_b f k r : ℚ) (n_x n_y : Nat) :
    ∃ p : Parameters, p.d_a = d_a ∧ p.d_b = d_b ∧ p.f = f ∧ p.k = k ∧ p.r = r
      ∧ p.n_x = n_x ∧ p.n_y = n_y :=
  ⟨⟨d_a, d_b, f, k, r, n_x, n_y⟩, rfl, rfl, rfl, rfl, rfl, rfl, rfl⟩

/-- Counterexample to C9 as stated: a record with `f = 2` (outside [0,1]) and
zero rows and columns is constructed without any rejection. -/
theorem claim_C9_counterexample :
    (Parameters.mk 2 2 2 2 2 0 0).f = 2 ∧ ¬((Parameters.mk 2 2 2 2 2 0 0).f ≤ 1)
    ∧ (Parameters.mk 2 2 2 2 2 0 0).n_x = 0 ∧ (Parameters.mk 2 2 2 2 2 0 0).n_y = 0 :=
  ⟨rfl, by norm_num, rfl, rfl⟩

/-- Claim C10: for an in-bounds position, every neighbour visited by the
diffusion operator is itself in bounds, so the unchecked neighbour indexing
stays inside the grid and the operator is total under this precondition. -/
theorem claim_C10_neighbours_in_bounds (position dimensions : Position)
    (hy : position.y < dimensions.y) (hx : position.x < dimensions.x) :
    (∀ qw ∈ existingNeighbours position dimensions,
      qw.1.y < dimensions.y ∧ qw.1.x < dimensions.x)
    ∧ ∀ (d_a d_b : ℚ) (cell : CellState) (u : Universe),
        get_diffusion_in_cell d_a d_b cell position dimensions u
          = diffusionSpec d_a d_b cell position dimensions u := by
  constructor
  · intro qw hqw
    rw [existingNeighbours, List.mem_filterMap] at hqw
    obtain ⟨t, ht, hft⟩ := hqw
    split at hft
    · rename_i hcond
      obtain ⟨c1, c2, c3, c4⟩ := hcond
      rw [Option.some.injEq] at hft
      subst hft
      constructor <;> simp <;> omega
    · exact absurd hft (by simp)
  · intro d_a d_b cell u
    exact diffusion_eq_spec d_a d_b cell position dimensions u hy hx

/-- Witness for C10 at position (0,1) of a 2 by 2 grid. -/
theorem claim_C10_witness :
    get_diffusion_in_cell 0.6 0.3 ⟨1, 1⟩ ⟨0, 1⟩ ⟨2, 2⟩ [[⟨1, 0⟩, ⟨0, 1⟩], [⟨2, 3⟩, ⟨4, 5⟩]]
      = diffusionSpec 0.6 0.3 ⟨1, 1⟩ ⟨0, 1⟩ ⟨2, 2⟩ [[⟨1, 0⟩, ⟨0, 1⟩], [⟨2, 3⟩, ⟨4, 5⟩]] :=
  (claim_C10_neighbours_in_bounds ⟨0, 1⟩ ⟨2, 2⟩ (by decide) (by decide)).2 0.6 0.3 ⟨1, 1⟩ _

end CATuring
